import Mathlib

/-!
Shallow embedding of the connection-event instrumentation of
`src/quic/s2n-quic/src/provider/event/disabled.rs` and of the pure parts of
the spec-loading utility `src/common/duvet/src/target.rs`.

Modelling conventions:
* The `AtomicU64` fields of `AckContext` are modelled as `Nat` with the
  wrapping `u64` arithmetic of the source made explicit: `fetch_add(1, …)`
  wraps on overflow and is embedded as `(x + 1) % 2 ^ 64`, and the `as u64`
  cast applied to `Duration::as_millis()` (a `u128`) truncates and is embedded
  as `… % 2 ^ 64` before the `fetch_max`.  Atomic read-modify-write hooks
  become pure functions `AckContext → event → AckContext`; a sequence of hook
  calls is a `foldl`.
* Rust `Duration` is `secs`/`nanos` with `as_millis` truncating to whole
  milliseconds, exactly as in `std`.
* Strings of the duvet utility are modelled as `List Char`; `String` literals
  only serve as named constants, converted by `.toList`.
-/

/-- Connection metadata, opaque to the subscriber (every hook ignores it). -/
structure ConnectionMeta where
  mk ::

/-- Connection-establishment parameters, opaque to the subscriber. -/
structure ConnectionInfo where
  mk ::

/-- `core::convert::Infallible`: an uninhabited error type. -/
inductive Infallible : Type where

/-- The stateless subscriber value (`pub struct Subscriber;`). -/
structure Subscriber where
  mk ::

/-- The disabled event provider (`pub struct Provider;`). -/
structure Provider where
  mk ::

/-- `impl Provider for Provider { fn start(self) { Ok(Subscriber) } }`. -/
def start (_ : Provider) : Except Infallible Subscriber :=
  Except.ok Subscriber.mk

/-- The QUIC frame variants of `s2n_quic_core::event::api::Frame`.  The
subscriber only ever matches on the `Ack` variant and ignores every other
kind, so the payloads carried by the variants are omitted and the remaining
kinds are represented by a sample of nullary constructors. -/
inductive Frame : Type where
  | Padding
  | Ping
  | Ack
  | ResetStream
  | Crypto
  | Stream
  | HandshakeDone
deriving DecidableEq

/-- Payload of the frame-sent event; only the `frame` field is inspected. -/
structure FrameSent where
  frame : Frame

/-- Payload of the frame-received event; only the `frame` field is inspected. -/
structure FrameReceived where
  frame : Frame

/-- Payload of the connection-closed event; the subscriber ignores it. -/
structure ConnectionClosed where
  mk ::

/-- Payload of the packet-lost event; only `is_mtu_probe` is inspected. -/
structure PacketLost where
  is_mtu_probe : Bool

/-- Rust `core::time::Duration`: whole seconds plus a sub-second nanosecond
part (in `std` the invariant `nanos < 10^9` holds; the definitions below do
not need it). -/
structure Duration where
  secs : Nat
  nanos : Nat

/-- `Duration::as_millis`: whole milliseconds, truncating the sub-millisecond
remainder (integer division). -/
def Duration.as_millis (d : Duration) : Nat :=
  d.secs * 1000 + d.nanos / 1000000

/-- Payload of the recovery-metrics event; only `rtt_variance` is inspected. -/
structure RecoveryMetrics where
  rtt_variance : Duration

/-- Per-connection aggregate state (`pub struct AckContext`), five `AtomicU64`
fields modelled as `Nat`. -/
structure AckContext where
  ack_tx : Nat
  ack_rx : Nat
  packet_lost : Nat
  mtu_packet_lost : Nat
  max_rtt_variance : Nat
deriving DecidableEq

/-- `create_connection_context`: returns `Default::default()`, i.e. every
atomic counter zero. -/
def create_connection_context (_ : ConnectionMeta) (_ : ConnectionInfo) :
    AckContext :=
  { ack_tx := 0, ack_rx := 0, packet_lost := 0, mtu_packet_lost := 0,
    max_rtt_variance := 0 }

/-- `on_frame_sent`: bump `ack_tx` when the sent frame is an `Ack`. -/
def on_frame_sent (c : AckContext) (_ : ConnectionMeta) (e : FrameSent) :
    AckContext :=
  match e.frame with
  | Frame.Ack => { c with ack_tx := (c.ack_tx + 1) % 2 ^ 64 }
  | _ => c

/-- `on_frame_received`: bump `ack_rx` when the received frame is an `Ack`. -/
def on_frame_received (c : AckContext) (_ : ConnectionMeta) (e : FrameReceived) :
    AckContext :=
  match e.frame with
  | Frame.Ack => { c with ack_rx := (c.ack_rx + 1) % 2 ^ 64 }
  | _ => c

/-- `on_connection_closed`: prints the debug representation of the context to
stdout and leaves the context itself untouched; the print effect is outside
the state, so the hook is the identity on `AckContext`. -/
def on_connection_closed (c : AckContext) (_ : ConnectionMeta)
    (_ : ConnectionClosed) : AckContext :=
  c

/-- `on_packet_lost`: bump `packet_lost` when the event is not an MTU probe
loss, otherwise bump `mtu_packet_lost`. -/
def on_packet_lost (c : AckContext) (_ : ConnectionMeta) (e : PacketLost) :
    AckContext :=
  if !e.is_mtu_probe then
    { c with packet_lost := (c.packet_lost + 1) % 2 ^ 64 }
  else
    { c with mtu_packet_lost := (c.mtu_packet_lost + 1) % 2 ^ 64 }

/-- `on_recovery_metrics`: `fetch_max` of the gauge with the RTT-variance
sample truncated to whole milliseconds and then truncated again by the
`as u64` cast (`% 2 ^ 64`). -/
def on_recovery_metrics (c : AckContext) (_ : ConnectionMeta)
    (e : RecoveryMetrics) : AckContext :=
  { c with max_rtt_variance := max c.max_rtt_variance (e.rtt_variance.as_millis % 2 ^ 64) }

/-! ### Step lemmas for the individual hooks -/

/-- Sending an `Ack` frame stores the wrapped successor in `ack_tx` and
touches nothing else. -/
theorem on_frame_sent_ack (c : AckContext) (m : ConnectionMeta) (e : FrameSent)
    (he : e.frame = Frame.Ack) :
    on_frame_sent c m e = { c with ack_tx := (c.ack_tx + 1) % 2 ^ 64 } := by
  simp [on_frame_sent, he]

/-- Sending any non-`Ack` frame leaves the context unchanged. -/
theorem on_frame_sent_other (c : AckContext) (m : ConnectionMeta) (e : FrameSent)
    (he : e.frame ≠ Frame.Ack) : on_frame_sent c m e = c := by
  cases hf : e.frame <;> simp_all [on_frame_sent]

/-- Receiving an `Ack` frame stores the wrapped successor in `ack_rx` and
touches nothing else. -/
theorem on_frame_received_ack (c : AckContext) (m : ConnectionMeta)
    (e : FrameReceived) (he : e.frame = Frame.Ack) :
    on_frame_received c m e = { c with ack_rx := (c.ack_rx + 1) % 2 ^ 64 } := by
  simp [on_frame_received, he]

/-- Receiving any non-`Ack` frame leaves the context unchanged. -/
theorem on_frame_received_other (c : AckContext) (m : ConnectionMeta)
    (e : FrameReceived) (he : e.frame ≠ Frame.Ack) :
    on_frame_received c m e = c := by
  cases hf : e.frame <;> simp_all [on_frame_received]

/-- A probe loss wraps `mtu_packet_lost` forward by one, only. -/
theorem on_packet_lost_probe (c : AckContext) (m : ConnectionMeta)
    (e : PacketLost) (he : e.is_mtu_probe = true) :
    on_packet_lost c m e
      = { c with mtu_packet_lost := (c.mtu_packet_lost + 1) % 2 ^ 64 } := by
  simp [on_packet_lost, he]

/-- An ordinary loss wraps `packet_lost` forward by one, only. -/
theorem on_packet_lost_plain (c : AckContext) (m : ConnectionMeta)
    (e : PacketLost) (he : e.is_mtu_probe = false) :
    on_packet_lost c m e
      = { c with packet_lost := (c.packet_lost + 1) % 2 ^ 64 } := by
  simp [on_packet_lost, he]

/-- Field-level effect of `on_packet_lost` on the two loss counters. -/
theorem on_packet_lost_fields (c : AckContext) (m : ConnectionMeta)
    (e : PacketLost) :
    (on_packet_lost c m e).packet_lost
        = (if e.is_mtu_probe then c.packet_lost
           else (c.packet_lost + 1) % 2 ^ 64) ∧
      (on_packet_lost c m e).mtu_packet_lost
        = (if e.is_mtu_probe then (c.mtu_packet_lost + 1) % 2 ^ 64
           else c.mtu_packet_lost) := by
  cases hb : e.is_mtu_probe <;> simp [on_packet_lost, hb]

/-- Field-level effect of an Ack-carrying `on_frame_sent` on `ack_tx`. -/
theorem on_frame_sent_ack_tx (c : AckContext) (m : ConnectionMeta)
    (e : FrameSent) (he : e.frame = Frame.Ack) :
    (on_frame_sent c m e).ack_tx = (c.ack_tx + 1) % 2 ^ 64 := by
  simp [on_frame_sent, he]

/-! ### Helper lemmas about sequences of hook calls -/

/-- A run of `on_frame_sent` calls that all carry `Ack` frames adds the length
of the run to `ack_tx`, as long as the counter stays below the wrap
boundary. -/
theorem foldl_on_frame_sent_ack (m : ConnectionMeta) :
    ∀ (es : List FrameSent) (c : AckContext), (∀ e ∈ es, e.frame = Frame.Ack) →
      c.ack_tx + es.length < 2 ^ 64 →
      (es.foldl (fun c e => on_frame_sent c m e) c).ack_tx = c.ack_tx + es.length
  | [], c, _, _ => rfl
  | e :: es, c, h, hb => by
    have he : e.frame = Frame.Ack := h e (List.mem_cons_self e es)
    rw [List.length_cons] at hb
    have hstep : (on_frame_sent c m e).ack_tx = c.ack_tx + 1 := by
      rw [on_frame_sent_ack_tx c m e he]; omega
    have ih := foldl_on_frame_sent_ack m es (on_frame_sent c m e)
      (fun x hx => h x (List.mem_cons_of_mem e hx)) (by rw [hstep]; omega)
    rw [List.foldl_cons, ih, hstep, List.length_cons]
    omega

/-- A run of `on_packet_lost` calls splits into the two counters by the
`is_mtu_probe` flag, as long as both counters stay below the wrap boundary. -/
theorem foldl_on_packet_lost (m : ConnectionMeta) :
    ∀ (es : List PacketLost) (c : AckContext),
      c.packet_lost + es.countP (fun e => !e.is_mtu_probe) < 2 ^ 64 →
      c.mtu_packet_lost + es.countP (fun e => e.is_mtu_probe) < 2 ^ 64 →
      (es.foldl (fun c e => on_packet_lost c m e) c).packet_lost
          = c.packet_lost + es.countP (fun e => !e.is_mtu_probe) ∧
        (es.foldl (fun c e => on_packet_lost c m e) c).mtu_packet_lost
          = c.mtu_packet_lost + es.countP (fun e => e.is_mtu_probe)
  | [], c, _, _ => by simp
  | e :: es, c, h1, h2 => by
    cases hb : e.is_mtu_probe
    · have hc1 : (e :: es).countP (fun e => !e.is_mtu_probe)
          = es.countP (fun e => !e.is_mtu_probe) + 1 := by
        simp [List.countP_cons, hb]
      have hc2 : (e :: es).countP (fun e => e.is_mtu_probe)
          = es.countP (fun e => e.is_mtu_probe) := by
        simp [List.countP_cons, hb]
      rw [hc1] at h1 ⊢
      rw [hc2] at h2 ⊢
      have hf := on_packet_lost_fields c m e
      rw [hb] at hf
      simp only [Bool.false_eq_true, if_false] at hf
      have hpl : (on_packet_lost c m e).packet_lost = c.packet_lost + 1 := by
        rw [hf.1]; omega
      have ih := foldl_on_packet_lost m es (on_packet_lost c m e)
        (by rw [hpl]; omega) (by rw [hf.2]; omega)
      rw [List.foldl_cons]
      exact ⟨by rw [ih.1, hpl]; omega, by rw [ih.2, hf.2]⟩
    · have hc1 : (e :: es).countP (fun e => !e.is_mtu_probe)
          = es.countP (fun e => !e.is_mtu_probe) := by
        simp [List.countP_cons, hb]
      have hc2 : (e :: es).countP (fun e => e.is_mtu_probe)
          = es.countP (fun e => e.is_mtu_probe) + 1 := by
        simp [List.countP_cons, hb]
      rw [hc1] at h1 ⊢
      rw [hc2] at h2 ⊢
      have hf := on_packet_lost_fields c m e
      rw [hb] at hf
      simp only [if_true] at hf
      have hmtu : (on_packet_lost c m e).mtu_packet_lost
          = c.mtu_packet_lost + 1 := by
        rw [hf.2]; omega
      have ih := foldl_on_packet_lost m es (on_packet_lost c m e)
        (by rw [hf.1]; omega) (by rw [hmtu]; omega)
      rw [List.foldl_cons]
      exact ⟨by rw [ih.1, hf.1], by rw [ih.2, hmtu]; omega⟩

/-! ### Claims about the event subscriber -/

/-- C1 (amended): when the event's frame is an `Ack`, `on_frame_sent`
(resp. `on_frame_received`) stores `ack_tx + 1` (resp. `ack_rx + 1`) reduced
modulo `2 ^ 64` — the wrapping `fetch_add` — which is exactly one greater
whenever the counter has not reached `2 ^ 64 - 1`; for every other frame kind
the call leaves the context completely unchanged; and a sequence of
`N < 2 ^ 64` Ack-carrying `on_frame_sent` calls starting from a freshly
created context leaves `ack_tx = N`. -/
theorem ack_frame_counting :
    (∀ (c : AckContext) (m : ConnectionMeta) (e : FrameSent),
        e.frame = Frame.Ack →
        on_frame_sent c m e = { c with ack_tx := (c.ack_tx + 1) % 2 ^ 64 }) ∧
    (∀ (c : AckContext) (m : ConnectionMeta) (e : FrameSent),
        e.frame = Frame.Ack → c.ack_tx < 2 ^ 64 - 1 →
        on_frame_sent c m e = { c with ack_tx := c.ack_tx + 1 }) ∧
    (∀ (c : AckContext) (m : ConnectionMeta) (e : FrameSent),
        e.frame ≠ Frame.Ack → on_frame_sent c m e = c) ∧
    (∀ (c : AckContext) (m : ConnectionMeta) (e : FrameReceived),
        e.frame = Frame.Ack →
        on_frame_received c m e = { c with ack_rx := (c.ack_rx + 1) % 2 ^ 64 }) ∧
    (∀ (c : AckContext) (m : ConnectionMeta) (e : FrameReceived),
        e.frame = Frame.Ack → c.ack_rx < 2 ^ 64 - 1 →
        on_frame_received c m e = { c with ack_rx := c.ack_rx + 1 }) ∧
    (∀ (c : AckContext) (m : ConnectionMeta) (e : FrameReceived),
        e.frame ≠ Frame.Ack → on_frame_received c m e = c) ∧
    (∀ (es : List FrameSent) (m m0 : ConnectionMeta) (i : ConnectionInfo),
        (∀ e ∈ es, e.frame = Frame.Ack) → es.length < 2 ^ 64 →
        (es.foldl (fun c e => on_frame_sent c m e)
            (create_connection_context m0 i)).ack_tx = es.length) := by
  refine ⟨on_frame_sent_ack, ?_, on_frame_sent_other, on_frame_received_ack,
    ?_, on_frame_received_other, ?_⟩
  · intro c m e he hb
    rw [on_frame_sent_ack c m e he]
    have h : (c.ack_tx + 1) % 2 ^ 64 = c.ack_tx + 1 := by omega
    rw [h]
  · intro c m e he hb
    rw [on_frame_received_ack c m e he]
    have h : (c.ack_rx + 1) % 2 ^ 64 = c.ack_rx + 1 := by omega
    rw [h]
  · intro es m m0 i h hn
    rw [foldl_on_frame_sent_ack m es (create_connection_context m0 i) h
      (by simpa [create_connection_context] using hn)]
    simp [create_connection_context]

/-- Counterexample to C1 as stated: at `ack_tx = 2 ^ 64 - 1` an Ack-carrying
`on_frame_sent` wraps the counter to `0`, which is not one greater than the
value before the call. -/
theorem ack_frame_counting_counterexample :
    (on_frame_sent ⟨2 ^ 64 - 1, 0, 0, 0, 0⟩ ConnectionMeta.mk
        ⟨Frame.Ack⟩).ack_tx = 0 ∧
    (0 : Nat) ≠ (2 ^ 64 - 1) + 1 := by
  exact ⟨by decide, by decide⟩

/-- Witness for the amended C1 at concrete inputs. -/
theorem ack_frame_counting_witness :
    on_frame_sent ⟨1, 2, 3, 4, 5⟩ ConnectionMeta.mk ⟨Frame.Ack⟩ = ⟨2, 2, 3, 4, 5⟩ ∧
    on_frame_sent ⟨1, 2, 3, 4, 5⟩ ConnectionMeta.mk ⟨Frame.Ping⟩ = ⟨1, 2, 3, 4, 5⟩ ∧
    on_frame_received ⟨1, 2, 3, 4, 5⟩ ConnectionMeta.mk ⟨Frame.Ack⟩ = ⟨1, 3, 3, 4, 5⟩ ∧
    on_frame_received ⟨1, 2, 3, 4, 5⟩ ConnectionMeta.mk ⟨Frame.Padding⟩ = ⟨1, 2, 3, 4, 5⟩ ∧
    (([⟨Frame.Ack⟩, ⟨Frame.Ack⟩, ⟨Frame.Ack⟩] : List FrameSent).foldl
        (fun c e => on_frame_sent c ConnectionMeta.mk e)
        (create_connection_context ConnectionMeta.mk ConnectionInfo.mk)).ack_tx = 3 := by
  refine ⟨?_, ?_, ?_, ?_, ?_⟩
  · exact ack_frame_counting.2.1 ⟨1, 2, 3, 4, 5⟩ ConnectionMeta.mk ⟨Frame.Ack⟩
      rfl (by decide)
  · exact ack_frame_counting.2.2.1 ⟨1, 2, 3, 4, 5⟩ ConnectionMeta.mk
      ⟨Frame.Ping⟩ (by decide)
  · exact ack_frame_counting.2.2.2.2.1 ⟨1, 2, 3, 4, 5⟩ ConnectionMeta.mk
      ⟨Frame.Ack⟩ rfl (by decide)
  · exact ack_frame_counting.2.2.2.2.2.1 ⟨1, 2, 3, 4, 5⟩ ConnectionMeta.mk
      ⟨Frame.Padding⟩ (by decide)
  · exact ack_frame_counting.2.2.2.2.2.2 [⟨Frame.Ack⟩, ⟨Frame.Ack⟩, ⟨Frame.Ack⟩]
      ConnectionMeta.mk ConnectionMeta.mk ConnectionInfo.mk (by decide) (by decide)

/-- C3 (amended): every `on_packet_lost` call stores the wrapped successor of
exactly one of the two loss counters — `mtu_packet_lost` when `is_mtu_probe`
holds, `packet_lost` otherwise, never both — which is exactly one greater
whenever that counter has not reached `2 ^ 64 - 1`; and a run of calls from a
fresh context with fewer than `2 ^ 64` events of either kind leaves
`mtu_packet_lost` equal to the number of probe-loss events and `packet_lost`
equal to the number of ordinary-loss events. -/
theorem packet_loss_split_counting :
    (∀ (c : AckContext) (m : ConnectionMeta) (e : PacketLost),
        e.is_mtu_probe = true →
        on_packet_lost c m e
          = { c with mtu_packet_lost := (c.mtu_packet_lost + 1) % 2 ^ 64 }) ∧
    (∀ (c : AckContext) (m : ConnectionMeta) (e : PacketLost),
        e.is_mtu_probe = true → c.mtu_packet_lost < 2 ^ 64 - 1 →
        on_packet_lost c m e
          = { c with mtu_packet_lost := c.mtu_packet_lost + 1 }) ∧
    (∀ (c : AckContext) (m : ConnectionMeta) (e : PacketLost),
        e.is_mtu_probe = false →
        on_packet_lost c m e
          = { c with packet_lost := (c.packet_lost + 1) % 2 ^ 64 }) ∧
    (∀ (c : AckContext) (m : ConnectionMeta) (e : PacketLost),
        e.is_mtu_probe = false → c.packet_lost < 2 ^ 64 - 1 →
        on_packet_lost c m e = { c with packet_lost := c.packet_lost + 1 }) ∧
    (∀ (es : List PacketLost) (m m0 : ConnectionMeta) (i : ConnectionInfo),
        es.countP (fun e => e.is_mtu_probe) < 2 ^ 64 →
        es.countP (fun e => !e.is_mtu_probe) < 2 ^ 64 →
        (es.foldl (fun c e => on_packet_lost c m e)
            (create_connection_context m0 i)).mtu_packet_lost
          = es.countP (fun e => e.is_mtu_probe) ∧
        (es.foldl (fun c e => on_packet_lost c m e)
            (create_connection_context m0 i)).packet_lost
          = es.countP (fun e => !e.is_mtu_probe)) := by
  refine ⟨on_packet_lost_probe, ?_, on_packet_lost_plain, ?_, ?_⟩
  · intro c m e he hb
    rw [on_packet_lost_probe c m e he]
    have h : (c.mtu_packet_lost + 1) % 2 ^ 64 = c.mtu_packet_lost + 1 := by omega
    rw [h]
  · intro c m e he hb
    rw [on_packet_lost_plain c m e he]
    have h : (c.packet_lost + 1) % 2 ^ 64 = c.packet_lost + 1 := by omega
    rw [h]
  · intro es m m0 i hk hm
    have h := foldl_on_packet_lost m es (create_connection_context m0 i)
      (by simpa [create_connection_context] using hm)
      (by simpa [create_connection_context] using hk)
    exact ⟨by rw [h.2]; simp [create_connection_context],
      by rw [h.1]; simp [create_connection_context]⟩

/-- Counterexample to C3 as stated: at `packet_lost = 2 ^ 64 - 1` an
ordinary-loss event wraps the counter to `0`, which is not one greater. -/
theorem packet_loss_split_counting_counterexample :
    (on_packet_lost ⟨0, 0, 2 ^ 64 - 1, 0, 0⟩ ConnectionMeta.mk
        ⟨false⟩).packet_lost = 0 ∧
    (0 : Nat) ≠ (2 ^ 64 - 1) + 1 := by
  exact ⟨by decide, by decide⟩

/-- Witness for the amended C3 at concrete inputs. -/
theorem packet_loss_split_counting_witness :
    on_packet_lost ⟨1, 2, 3, 4, 5⟩ ConnectionMeta.mk ⟨true⟩ = ⟨1, 2, 3, 5, 5⟩ ∧
    on_packet_lost ⟨1, 2, 3, 4, 5⟩ ConnectionMeta.mk ⟨false⟩ = ⟨1, 2, 4, 4, 5⟩ ∧
    ((([⟨true⟩, ⟨false⟩, ⟨true⟩, ⟨false⟩, ⟨false⟩] : List PacketLost).foldl
        (fun c e => on_packet_lost c ConnectionMeta.mk e)
        (create_connection_context ConnectionMeta.mk
          ConnectionInfo.mk)).mtu_packet_lost = 2 ∧
      (([⟨true⟩, ⟨false⟩, ⟨true⟩, ⟨false⟩, ⟨false⟩] : List PacketLost).foldl
        (fun c e => on_packet_lost c ConnectionMeta.mk e)
        (create_connection_context ConnectionMeta.mk
          ConnectionInfo.mk)).packet_lost = 3) := by
  refine ⟨?_, ?_, ?_⟩
  · exact packet_loss_split_counting.2.1 ⟨1, 2, 3, 4, 5⟩ ConnectionMeta.mk
      ⟨true⟩ rfl (by decide)
  · exact packet_loss_split_counting.2.2.2.1 ⟨1, 2, 3, 4, 5⟩ ConnectionMeta.mk
      ⟨false⟩ rfl (by decide)
  · exact packet_loss_split_counting.2.2.2.2
      [⟨true⟩, ⟨false⟩, ⟨true⟩, ⟨false⟩, ⟨false⟩]
      ConnectionMeta.mk ConnectionMeta.mk ConnectionInfo.mk (by decide) (by decide)

/-- One counter value follows another by a single hook call: it is unchanged,
or it is the wrapped `u64` successor. -/
def counterStep (before after : Nat) : Prop :=
  after = before ∨ after = (before + 1) % 2 ^ 64

/-- C4 (amended): every hook either leaves each of the four counters unchanged
or stores its successor reduced modulo `2 ^ 64` (the wrapping `fetch_add`);
consequently a counter never decreases across a call as long as its value
before the call is below `2 ^ 64 - 1` — at `2 ^ 64 - 1` the increment wraps
to `0`. -/
theorem counters_monotone :
    (∀ (c : AckContext) (m : ConnectionMeta) (e : FrameSent),
        counterStep c.ack_tx (on_frame_sent c m e).ack_tx ∧
        counterStep c.ack_rx (on_frame_sent c m e).ack_rx ∧
        counterStep c.packet_lost (on_frame_sent c m e).packet_lost ∧
        counterStep c.mtu_packet_lost (on_frame_sent c m e).mtu_packet_lost) ∧
    (∀ (c : AckContext) (m : ConnectionMeta) (e : FrameReceived),
        counterStep c.ack_tx (on_frame_received c m e).ack_tx ∧
        counterStep c.ack_rx (on_frame_received c m e).ack_rx ∧
        counterStep c.packet_lost (on_frame_received c m e).packet_lost ∧
        counterStep c.mtu_packet_lost (on_frame_received c m e).mtu_packet_lost) ∧
    (∀ (c : AckContext) (m : ConnectionMeta) (e : PacketLost),
        counterStep c.ack_tx (on_packet_lost c m e).ack_tx ∧
        counterStep c.ack_rx (on_packet_lost c m e).ack_rx ∧
        counterStep c.packet_lost (on_packet_lost c m e).packet_lost ∧
        counterStep c.mtu_packet_lost (on_packet_lost c m e).mtu_packet_lost) ∧
    (∀ (c : AckContext) (m : ConnectionMeta) (e : RecoveryMetrics),
        counterStep c.ack_tx (on_recovery_metrics c m e).ack_tx ∧
        counterStep c.ack_rx (on_recovery_metrics c m e).ack_rx ∧
        counterStep c.packet_lost (on_recovery_metrics c m e).packet_lost ∧
        counterStep c.mtu_packet_lost (on_recovery_metrics c m e).mtu_packet_lost) ∧
    (∀ (c : AckContext) (m : ConnectionMeta) (e : ConnectionClosed),
        counterStep c.ack_tx (on_connection_closed c m e).ack_tx ∧
        counterStep c.ack_rx (on_connection_closed c m e).ack_rx ∧
        counterStep c.packet_lost (on_connection_closed c m e).packet_lost ∧
        counterStep c.mtu_packet_lost (on_connection_closed c m e).mtu_packet_lost) ∧
    (∀ b a : Nat, counterStep b a → b < 2 ^ 64 - 1 → b ≤ a) := by
  refine ⟨?_, ?_, ?_, ?_, ?_, ?_⟩
  · intro c m e
    cases hf : e.frame <;> simp [counterStep, on_frame_sent, hf]
  · intro c m e
    cases hf : e.frame <;> simp [counterStep, on_frame_received, hf]
  · intro c m e
    cases hb : e.is_mtu_probe <;> simp [counterStep, on_packet_lost, hb]
  · intro c m e
    simp [counterStep, on_recovery_metrics]
  · intro c m e
    simp [counterStep, on_connection_closed]
  · intro b a h hb
    rcases h with rfl | rfl <;> omega

/-- Counterexample to C4 as stated: at `ack_rx = 2 ^ 64 - 1` an Ack-carrying
`on_frame_received` wraps the counter to `0`, strictly below its value before
the call — the counters are not unconditionally non-decreasing. -/
theorem counters_monotone_counterexample :
    (on_frame_received ⟨0, 2 ^ 64 - 1, 0, 0, 0⟩ ConnectionMeta.mk
        ⟨Frame.Ack⟩).ack_rx = 0 ∧
    ¬ ((2 ^ 64 - 1 : Nat) ≤ (on_frame_received ⟨0, 2 ^ 64 - 1, 0, 0, 0⟩
        ConnectionMeta.mk ⟨Frame.Ack⟩).ack_rx) := by
  exact ⟨by decide, by decide⟩

/-- Witness for the amended C4 at a concrete below-boundary call. -/
theorem counters_monotone_witness :
    counterStep ((⟨5, 0, 0, 0, 0⟩ : AckContext).ack_tx)
      ((on_frame_sent ⟨5, 0, 0, 0, 0⟩ ConnectionMeta.mk ⟨Frame.Ack⟩).ack_tx) ∧
    (⟨5, 0, 0, 0, 0⟩ : AckContext).ack_tx
      ≤ (on_frame_sent ⟨5, 0, 0, 0, 0⟩ ConnectionMeta.mk ⟨Frame.Ack⟩).ack_tx := by
  have h1 := (counters_monotone.1 ⟨5, 0, 0, 0, 0⟩ ConnectionMeta.mk
    ⟨Frame.Ack⟩).1
  exact ⟨h1, counters_monotone.2.2.2.2.2 _ _ h1 (by decide)⟩

/-- C5: a freshly created connection context has all five aggregate fields
equal to zero. -/
theorem create_connection_context_zeroed :
    ∀ (m : ConnectionMeta) (i : ConnectionInfo),
      (create_connection_context m i).ack_tx = 0 ∧
      (create_connection_context m i).ack_rx = 0 ∧
      (create_connection_context m i).packet_lost = 0 ∧
      (create_connection_context m i).mtu_packet_lost = 0 ∧
      (create_connection_context m i).max_rtt_variance = 0 := by
  intro m i
  exact ⟨rfl, rfl, rfl, rfl, rfl⟩

/-- C6: `start` of the disabled provider always succeeds with the subscriber
value, and its error type is uninhabited, so the error branch is
unreachable. -/
theorem start_infallible :
    (∀ p : Provider, start p = Except.ok Subscriber.mk) ∧
    (Infallible → False) := by
  exact ⟨fun _ => rfl, fun e => nomatch e⟩

/-- C9: `on_connection_closed` only reads and emits the accumulated state;
it returns the context with all five aggregate fields unchanged. -/
theorem on_connection_closed_pure :
    ∀ (c : AckContext) (m : ConnectionMeta) (e : ConnectionClosed),
      on_connection_closed c m e = c := by
  intro c m _
  rfl

/-! ### Helper lemmas about running maxima -/

/-- The seed of a `foldl max` is a lower bound of the result. -/
theorem foldl_max_init_le : ∀ (l : List Nat) (a : Nat), a ≤ l.foldl max a
  | [], _ => le_refl _
  | b :: l, a =>
    le_trans (le_max_left a b) (foldl_max_init_le l (max a b))

/-- Every member of the list is a lower bound of a `foldl max`. -/
theorem foldl_max_mem_le :
    ∀ (l : List Nat) (a x : Nat), x ∈ l → x ≤ l.foldl max a
  | b :: l, a, x, h => by
    rcases List.mem_cons.mp h with rfl | h
    · exact le_trans (le_max_right a x) (foldl_max_init_le l (max a x))
    · exact foldl_max_mem_le l (max a b) x h

/-- A `foldl max` is either its seed or one of the list members. -/
theorem foldl_max_attained :
    ∀ (l : List Nat) (a : Nat), l.foldl max a = a ∨ l.foldl max a ∈ l
  | [], _ => Or.inl rfl
  | b :: l, a => by
    rcases foldl_max_attained l (max a b) with h | h
    · rcases max_choice a b with hab | hab
      · exact Or.inl (by rw [List.foldl_cons, h, hab])
      · exact Or.inr (by rw [List.foldl_cons, h, hab]; exact List.mem_cons_self b l)
    · exact Or.inr (List.mem_cons_of_mem b h)

/-- A run of `on_recovery_metrics` calls turns the gauge into the running
maximum of the seed and the cast-truncated millisecond samples. -/
theorem foldl_on_recovery_metrics (m : ConnectionMeta) :
    ∀ (es : List RecoveryMetrics) (c : AckContext),
      (es.foldl (fun c e => on_recovery_metrics c m e) c).max_rtt_variance
        = (es.map (fun e => e.rtt_variance.as_millis % 2 ^ 64)).foldl max
            c.max_rtt_variance
  | [], _ => rfl
  | e :: es, c => by
    rw [List.foldl_cons, List.map_cons, List.foldl_cons]
    exact foldl_on_recovery_metrics m es (on_recovery_metrics c m e)

/-- C2 (amended): after a sequence of `on_recovery_metrics` calls on a fresh
context whose whole-millisecond samples are all below `2 ^ 64` (the `as u64`
cast is then lossless), the gauge is an upper bound of all samples and (for a
nonempty sequence) is attained by one of them, i.e. it equals their maximum; a
call whose sample is at most the current gauge leaves the context unchanged;
and no call ever decreases the gauge. -/
theorem rtt_variance_gauge_max :
    (∀ (es : List RecoveryMetrics) (m m0 : ConnectionMeta) (i : ConnectionInfo),
        (∀ e ∈ es, e.rtt_variance.as_millis < 2 ^ 64) →
        (∀ e ∈ es, e.rtt_variance.as_millis ≤
          (es.foldl (fun c e => on_recovery_metrics c m e)
            (create_connection_context m0 i)).max_rtt_variance) ∧
        (es ≠ [] → ∃ e ∈ es,
          (es.foldl (fun c e => on_recovery_metrics c m e)
            (create_connection_context m0 i)).max_rtt_variance
            = e.rtt_variance.as_millis)) ∧
    (∀ (c : AckContext) (m : ConnectionMeta) (e : RecoveryMetrics),
        e.rtt_variance.as_millis ≤ c.max_rtt_variance →
        on_recovery_metrics c m e = c) ∧
    (∀ (c : AckContext) (m : ConnectionMeta) (e : RecoveryMetrics),
        c.max_rtt_variance ≤ (on_recovery_metrics c m e).max_rtt_variance) := by
  refine ⟨?_, ?_, ?_⟩
  · intro es m m0 i hlt
    have hmap : es.map (fun e => e.rtt_variance.as_millis % 2 ^ 64)
        = es.map (fun e => e.rtt_variance.as_millis) :=
      List.map_congr_left (fun e he => Nat.mod_eq_of_lt (hlt e he))
    rw [foldl_on_recovery_metrics m es (create_connection_context m0 i), hmap]
    constructor
    · intro e he
      exact foldl_max_mem_le _ _ _ (List.mem_map_of_mem _ he)
    · intro hne
      rcases foldl_max_attained (es.map (fun e => e.rtt_variance.as_millis))
          (create_connection_context m0 i).max_rtt_variance with h | h
      · rcases List.exists_mem_of_ne_nil es hne with ⟨e0, he0⟩
        refine ⟨e0, he0, le_antisymm ?_ ?_⟩
        · rw [h]; exact Nat.zero_le _
        · exact foldl_max_mem_le _ _ _ (List.mem_map_of_mem _ he0)
      · rcases List.mem_map.mp h with ⟨e0, he0, heq⟩
        exact ⟨e0, he0, heq.symm⟩
  · intro c m e h
    have hm : max c.max_rtt_variance (e.rtt_variance.as_millis % 2 ^ 64)
        = c.max_rtt_variance :=
      max_eq_left (le_trans (Nat.mod_le _ _) h)
    show { c with max_rtt_variance := max c.max_rtt_variance (e.rtt_variance.as_millis % 2 ^ 64) } = c
    rw [hm]
  · intro c m e
    exact le_max_left _ _

/-- Counterexample to C2 as stated: a sample of exactly `2 ^ 64` whole
milliseconds is truncated to `0` by the `as u64` cast, so after the call on a
fresh context the gauge is `0`, not the maximum `2 ^ 64` of the samples. -/
theorem rtt_variance_gauge_max_counterexample :
    (⟨⟨18446744073709551, 616000000⟩⟩ : RecoveryMetrics).rtt_variance.as_millis
      = 2 ^ 64 ∧
    (on_recovery_metrics
        (create_connection_context ConnectionMeta.mk ConnectionInfo.mk)
        ConnectionMeta.mk
        ⟨⟨18446744073709551, 616000000⟩⟩).max_rtt_variance = 0 ∧
    (0 : Nat) ≠ 2 ^ 64 := by
  exact ⟨by decide, by decide, by decide⟩

/-- Witness for the amended C2 at concrete inputs (samples 15 ms then 9 ms). -/
theorem rtt_variance_gauge_max_witness :
    (∃ e ∈ ([⟨⟨0, 15000000⟩⟩, ⟨⟨0, 9000000⟩⟩] : List RecoveryMetrics),
        (([⟨⟨0, 15000000⟩⟩, ⟨⟨0, 9000000⟩⟩] : List RecoveryMetrics).foldl
          (fun c e => on_recovery_metrics c ConnectionMeta.mk e)
          (create_connection_context ConnectionMeta.mk
            ConnectionInfo.mk)).max_rtt_variance = e.rtt_variance.as_millis) ∧
    on_recovery_metrics ⟨1, 2, 3, 4, 20⟩ ConnectionMeta.mk ⟨⟨0, 9000000⟩⟩
      = ⟨1, 2, 3, 4, 20⟩ ∧
    (⟨1, 2, 3, 4, 5⟩ : AckContext).max_rtt_variance
      ≤ (on_recovery_metrics ⟨1, 2, 3, 4, 5⟩ ConnectionMeta.mk
          ⟨⟨0, 9000000⟩⟩).max_rtt_variance := by
  refine ⟨?_, ?_, ?_⟩
  · exact (rtt_variance_gauge_max.1 [⟨⟨0, 15000000⟩⟩, ⟨⟨0, 9000000⟩⟩]
      ConnectionMeta.mk ConnectionMeta.mk ConnectionInfo.mk (by decide)).2
      (List.cons_ne_nil _ _)
  · exact rtt_variance_gauge_max.2.1 ⟨1, 2, 3, 4, 20⟩ ConnectionMeta.mk
      ⟨⟨0, 9000000⟩⟩ (by decide)
  · exact rtt_variance_gauge_max.2.2 ⟨1, 2, 3, 4, 5⟩ ConnectionMeta.mk
      ⟨⟨0, 9000000⟩⟩

/-- C10 (amended): the RTT-variance sample enters the gauge comparison as the
floor of its total nanoseconds divided by one million — whole milliseconds,
truncating (not rounding) any sub-millisecond fraction — reduced modulo
`2 ^ 64` by the `as u64` cast; in particular a sample strictly below one
millisecond contributes `0` and leaves the context unchanged. -/
theorem rtt_variance_truncates_millis :
    (∀ (c : AckContext) (m : ConnectionMeta) (e : RecoveryMetrics),
        (on_recovery_metrics c m e).max_rtt_variance
          = max c.max_rtt_variance
              (((e.rtt_variance.secs * 1000000000 + e.rtt_variance.nanos)
                / 1000000) % 2 ^ 64)) ∧
    (∀ (c : AckContext) (m : ConnectionMeta) (e : RecoveryMetrics),
        e.rtt_variance.secs = 0 → e.rtt_variance.nanos < 1000000 →
        on_recovery_metrics c m e = c) := by
  constructor
  · intro c m e
    have h : (e.rtt_variance.secs * 1000000000 + e.rtt_variance.nanos) / 1000000
        = e.rtt_variance.as_millis := by
      have h1 : e.rtt_variance.secs * 1000000000
          = 1000000 * (e.rtt_variance.secs * 1000) := by ring
      rw [Duration.as_millis, h1, Nat.mul_add_div (by norm_num)]
    rw [h]
    rfl
  · intro c m e hs hn
    have h0 : e.rtt_variance.as_millis = 0 := by
      rw [Duration.as_millis, hs, Nat.div_eq_of_lt hn]
    simp [on_recovery_metrics, h0]

/-- Counterexample to C10 as stated: a sample of `2 ^ 65` whole milliseconds
(total nanoseconds divided by one million) is stored as `0` after the
`as u64` cast, not as `max 0 (2 ^ 65)` — the gauge compares the cast-truncated
value, not the untruncated whole-millisecond part. -/
theorem rtt_variance_truncates_millis_counterexample :
    (on_recovery_metrics ⟨0, 0, 0, 0, 0⟩ ConnectionMeta.mk
        ⟨⟨36893488147419103, 232000000⟩⟩).max_rtt_variance = 0 ∧
    max (0 : Nat) ((36893488147419103 * 1000000000 + 232000000) / 1000000)
      = 2 ^ 65 ∧
    (0 : Nat) ≠ 2 ^ 65 := by
  exact ⟨by decide, by decide, by decide⟩

/-- Witness for the amended C10: a 0.999999 ms sample is truncated to 0 and
cannot raise the gauge, and a 1.9 ms sample enters as `1`. -/
theorem rtt_variance_truncates_millis_witness :
    on_recovery_metrics ⟨1, 2, 3, 4, 0⟩ ConnectionMeta.mk ⟨⟨0, 999999⟩⟩
      = ⟨1, 2, 3, 4, 0⟩ ∧
    (on_recovery_metrics ⟨1, 2, 3, 4, 0⟩ ConnectionMeta.mk
        ⟨⟨0, 1900000⟩⟩).max_rtt_variance
      = max 0 (((0 * 1000000000 + 1900000) / 1000000) % 2 ^ 64) := by
  constructor
  · exact rtt_variance_truncates_millis.2 ⟨1, 2, 3, 4, 0⟩ ConnectionMeta.mk
      ⟨⟨0, 999999⟩⟩ rfl (by decide)
  · exact rtt_variance_truncates_millis.1 ⟨1, 2, 3, 4, 0⟩ ConnectionMeta.mk
      ⟨⟨0, 1900000⟩⟩

/-! ### The duvet target utility (`src/common/duvet/src/target.rs`)

Strings are modelled as `List Char`; the named `String` constants below only
provide readable literals.  File-system and network reads are outside a pure
embedding, so `load` takes the raw contents the code has just read and models
the normalization the code performs on them before returning. -/

/-- The newline character `TargetPath::load` guarantees at the end. -/
def newlineChar : Char := '\n'

/-- `TargetPath::load`, content part: after reading the target (local file, or
cached/fetched URL body) the code appends a single newline unless the contents
already end with one. -/
def load (contents : List Char) : List Char :=
  if contents.getLast? = some newlineChar then contents
  else contents ++ [newlineChar]

/-- C7: whenever `load` succeeds its result ends with a newline; contents that
already end in a newline are returned as read, and contents that do not get
exactly one newline appended. -/
theorem load_newline_terminated :
    ∀ contents : List Char,
      (load contents).getLast? = some newlineChar ∧
      (contents.getLast? = some newlineChar → load contents = contents) ∧
      (contents.getLast? ≠ some newlineChar →
        load contents = contents ++ [newlineChar]) := by
  intro c
  by_cases h : c.getLast? = some newlineChar
  · refine ⟨?_, fun _ => ?_, fun hc => absurd h hc⟩
    · rw [load, if_pos h]; exact h
    · rw [load, if_pos h]
  · refine ⟨?_, fun hc => absurd hc h, fun _ => ?_⟩
    · rw [load, if_neg h]; exact List.getLast?_concat c
    · rw [load, if_neg h]

/-- Witness for C7 on both branches. -/
theorem load_newline_terminated_witness :
    (load ['a', 'b']).getLast? = some newlineChar ∧
    load ['a', 'b'] = ['a', 'b'] ++ [newlineChar] ∧
    load ['a', '\n'] = ['a', '\n'] := by
  refine ⟨?_, ?_, ?_⟩
  · exact (load_newline_terminated ['a', 'b']).1
  · exact (load_newline_terminated ['a', 'b']).2.2 (by decide)
  · exact (load_newline_terminated ['a', '\n']).2.1 (by decide)

/-- Literal `".txt"` of `canonical_url`. -/
def txtStr : String := ".txt"

/-- Literal `".html"` of `canonical_url`. -/
def htmlStr : String := ".html"

/-- Literal `"https://tools.ietf.org/rfc/"` of `canonical_url`. -/
def ietfStr : String := "https://tools.ietf.org/rfc/"

/-- Literal `"https://www.rfc-editor.org/rfc/"` of `canonical_url`. -/
def rfcEditorStr : String := "https://www.rfc-editor.org/rfc/"

/-- The `".txt"` suffix as a character list. -/
def txtSuffix : List Char := txtStr.toList

/-- The `".html"` suffix as a character list. -/
def htmlSuffix : List Char := htmlStr.toList

/-- The IETF tools prefix as a character list. -/
def ietfPre : List Char := ietfStr.toList

/-- The rfc-editor prefix as a character list. -/
def rfcEditorPre : List Char := rfcEditorStr.toList

/-- Rust `str::trim_end_matches`, fuel-bounded: one unit of fuel per removed
occurrence; `s.length` units are always enough. -/
def trimEndAux (pat : List Char) : Nat → List Char → List Char
  | 0, s => s
  | fuel + 1, s =>
    if pat <:+ s ∧ pat ≠ [] then
      trimEndAux pat fuel (s.take (s.length - pat.length))
    else s

/-- Rust `s.trim_end_matches(pat)`: repeatedly removes the trailing
occurrence of `pat` (no-op for the empty pattern, as in Rust). -/
def trimEndMatches (s pat : List Char) : List Char :=
  trimEndAux pat s.length s

/-- `TargetPath::canonical_url`: rewrite the two well-known IETF URL forms to
the rfc-editor text document, leave every other URL unchanged. -/
def canonical_url (url : List Char) : List Char :=
  if ietfPre <+: url then
    rfcEditorPre ++
      trimEndMatches (trimEndMatches (url.drop ietfPre.length) txtSuffix)
        htmlSuffix ++ txtSuffix
  else if rfcEditorPre <+: url then
    trimEndMatches (trimEndMatches url txtSuffix) htmlSuffix ++ txtSuffix
  else url

/-- What the claim asserts for URLs under the rfc-editor prefix, stated in the
claim's own words for comparison with the code (refinement check): the URL's
trailing `".txt"`/`".html"` suffixes — all of them, in whatever order they
occur — are replaced by one single `".txt"`. -/
def stripDocSuffixes : Nat → List Char → List Char
  | 0, s => s
  | fuel + 1, s =>
    if txtSuffix <:+ s then
      stripDocSuffixes fuel (s.take (s.length - txtSuffix.length))
    else if htmlSuffix <:+ s then
      stripDocSuffixes fuel (s.take (s.length - htmlSuffix.length))
    else s

/-- The rfc-editor clause of the claim, as a function (see
`stripDocSuffixes`): same URL with its suffixes replaced by a single
`".txt"`. -/
def canonical_url_claim (url : List Char) : List Char :=
  stripDocSuffixes url.length url ++ txtSuffix

/-- The URL the claim fails on. -/
def cexUrlStr : String := "https://www.rfc-editor.org/rfc/rfc9000.txt.html"

/-- What the code actually produces on `cexUrlStr`. -/
def cexCodeStr : String := "https://www.rfc-editor.org/rfc/rfc9000.txt.txt"

/-- What the claim predicts on `cexUrlStr`. -/
def cexClaimStr : String := "https://www.rfc-editor.org/rfc/rfc9000.txt"

/-- Counterexample to C8: on the rfc-editor URL
`https://www.rfc-editor.org/rfc/rfc9000.txt.html` the code first strips
trailing `".txt"` occurrences (none — the URL ends in `".html"`), then strips
trailing `".html"` occurrences, and appends `".txt"`, producing
`…/rfc9000.txt.txt`; the claim's "suffixes replaced by a single `.txt`" would
give `…/rfc9000.txt`. -/
theorem canonical_url_claim_counterexample :
    rfcEditorPre <+: cexUrlStr.toList ∧
    canonical_url cexUrlStr.toList = cexCodeStr.toList ∧
    canonical_url_claim cexUrlStr.toList = cexClaimStr.toList ∧
    canonical_url cexUrlStr.toList ≠ canonical_url_claim cexUrlStr.toList := by
  refine ⟨by decide, by decide, by decide, by decide⟩

/-- Equation lemma: `trimEndAux` at zero fuel. -/
theorem trimEndAux_zero (pat s : List Char) : trimEndAux pat 0 s = s := rfl

/-- Equation lemma: one step of `trimEndAux`. -/
theorem trimEndAux_succ (pat : List Char) (fuel : Nat) (s : List Char) :
    trimEndAux pat (fuel + 1) s
      = if pat <:+ s ∧ pat ≠ [] then
          trimEndAux pat fuel (s.take (s.length - pat.length))
        else s := rfl

/-- `trimEndAux` does nothing when the pattern is not a suffix. -/
theorem trimEndAux_of_not_suffix (pat : List Char) (fuel : Nat)
    (s : List Char) (h : ¬ pat <:+ s) : trimEndAux pat fuel s = s := by
  cases fuel with
  | zero => rfl
  | succ fuel => rw [trimEndAux_succ, if_neg (fun hg => h hg.1)]

/-- `trimEndMatches` does nothing when the pattern is not a suffix. -/
theorem trimEndMatches_of_not_suffix (s pat : List Char) (h : ¬ pat <:+ s) :
    trimEndMatches s pat = s :=
  trimEndAux_of_not_suffix pat s.length s h

/-- `trimEndAux` is insensitive to the exact fuel once the fuel covers the
length of the string. -/
theorem trimEndAux_fuel (pat : List Char) (hp : pat ≠ []) :
    ∀ (fuel : Nat) (s : List Char) (fuel' : Nat),
      s.length ≤ fuel → s.length ≤ fuel' →
      trimEndAux pat fuel s = trimEndAux pat fuel' s := by
  intro fuel
  induction fuel with
  | zero =>
    intro s fuel' h h'
    have hs : s = [] := List.eq_nil_of_length_eq_zero (Nat.le_zero.mp h)
    subst hs
    cases fuel' with
    | zero => rfl
    | succ fuel' =>
      rw [trimEndAux_zero, trimEndAux_succ,
        if_neg (fun hg => hp (List.suffix_nil.mp hg.1))]
  | succ fuel ih =>
    intro s fuel' h h'
    cases fuel' with
    | zero =>
      have hs : s = [] := List.eq_nil_of_length_eq_zero (Nat.le_zero.mp h')
      subst hs
      rw [trimEndAux_zero, trimEndAux_succ,
        if_neg (fun hg => hp (List.suffix_nil.mp hg.1))]
    | succ fuel' =>
      rw [trimEndAux_succ, trimEndAux_succ]
      by_cases hg : pat <:+ s ∧ pat ≠ []
      · rw [if_pos hg, if_pos hg]
        have hlen : (s.take (s.length - pat.length)).length
            = s.length - pat.length := by
          rw [s.length_take _]
          exact Nat.min_eq_left (Nat.sub_le _ _)
        have hpos : 0 < pat.length := List.length_pos.mpr hp
        exact ih _ fuel' (by omega) (by omega)
      · rw [if_neg hg, if_neg hg]

/-- Removing one explicit trailing copy of the pattern is one `trimEndMatches`
step. -/
theorem trimEndMatches_append (s pat : List Char) (hp : pat ≠ []) :
    trimEndMatches (s ++ pat) pat = trimEndMatches s pat := by
  have hpos : 0 < pat.length := List.length_pos.mpr hp
  have hl : (s ++ pat).length = s.length + pat.length := s.length_append pat
  obtain ⟨k, hk⟩ : ∃ k, (s ++ pat).length = k + 1 :=
    ⟨(s ++ pat).length - 1, by omega⟩
  rw [trimEndMatches, hk, trimEndAux_succ,
    if_pos ⟨List.suffix_append s pat, hp⟩]
  have hsub : (s ++ pat).length - pat.length = s.length := by omega
  rw [hsub, List.take_left s pat]
  exact trimEndAux_fuel pat hp k s s.length (by omega) (le_refl _)

/-- Concatenation of `n` copies of a pattern. -/
def repeatList (pat : List Char) : Nat → List Char
  | 0 => []
  | n + 1 => repeatList pat n ++ pat

/-- `trimEndMatches` removes any number of explicit trailing copies of the
pattern. -/
theorem trimEndMatches_repeatList (pat : List Char) (hp : pat ≠ []) :
    ∀ (i : Nat) (s : List Char),
      trimEndMatches (s ++ repeatList pat i) pat = trimEndMatches s pat
  | 0, s => by rw [repeatList, List.append_nil]
  | i + 1, s => by
    rw [repeatList, ← List.append_assoc, trimEndMatches_append _ pat hp,
      trimEndMatches_repeatList pat hp i s]

/-- A nonempty suffix determines the last element. -/
theorem getLast?_of_suffix {pat y : List Char} (h : pat <:+ y)
    (hp : pat ≠ []) : y.getLast? = pat.getLast? := by
  obtain ⟨z, rfl⟩ := h
  exact List.getLast?_append_of_ne_nil z hp

/-- `".txt"` is never a suffix of something ending in `".html"` (the last
characters differ). -/
theorem not_txt_suffix_of_html (x : List Char) :
    ¬ txtSuffix <:+ x ++ htmlSuffix := by
  intro h
  have h1 : (x ++ htmlSuffix).getLast? = txtSuffix.getLast? :=
    getLast?_of_suffix h (by decide)
  have h2 : (x ++ htmlSuffix).getLast? = htmlSuffix.getLast? :=
    List.getLast?_append_of_ne_nil x (by decide)
  rw [h1] at h2
  exact absurd h2 (by decide)

/-- The IETF tools prefix never starts a URL that starts with the rfc-editor
prefix (the two prefixes differ within their common length). -/
theorem not_ietf_prefix_of_rfcEditor {url : List Char}
    (h : rfcEditorPre <+: url) : ¬ ietfPre <+: url := by
  intro hi
  have h3 : ietfPre <+: rfcEditorPre :=
    List.prefix_of_prefix_length_le hi h (by decide)
  exact absurd h3 (by decide)

/-- Every string splits off a maximal trailing run of a nonempty pattern: it
is a string that does not end with the pattern, followed by some number of
copies of the pattern. -/
theorem exists_trailing_run (pat : List Char) (hp : pat ≠ []) :
    ∀ v : List Char, ∃ w k, v = w ++ repeatList pat k ∧ ¬ pat <:+ w := by
  have H : ∀ (n : Nat) (v : List Char), v.length ≤ n →
      ∃ w k, v = w ++ repeatList pat k ∧ ¬ pat <:+ w := by
    intro n
    induction n with
    | zero =>
      intro v hv
      have hnil : v = [] := List.eq_nil_of_length_eq_zero (Nat.le_zero.mp hv)
      subst hnil
      exact ⟨[], 0, by simp [repeatList], fun hs => hp (List.suffix_nil.mp hs)⟩
    | succ n ih =>
      intro v hv
      by_cases h : pat <:+ v
      · obtain ⟨w1, hw1⟩ := h
        have hlen : w1.length ≤ n := by
          have hl := congrArg List.length hw1
          have hp1 : 0 < pat.length := List.length_pos.mpr hp
          simp [List.length_append] at hl
          omega
        obtain ⟨w, k, hw, hnw⟩ := ih w1 hlen
        refine ⟨w, k + 1, ?_, hnw⟩
        rw [← hw1, hw, repeatList, ← List.append_assoc]
      · exact ⟨v, 0, by simp [repeatList], h⟩
  intro v
  exact H v.length v (le_refl _)

/-- C8 (amended): `canonical_url` (i) maps
`https://tools.ietf.org/rfc/<name>` — `<name>` carrying no `".txt"`/`".html"`
suffix of its own, optionally followed by one such suffix — to
`https://www.rfc-editor.org/rfc/<name>.txt`; (ii) on a URL under
`https://www.rfc-editor.org/rfc/` of the shape
`base ++ ".html"^j ++ ".txt"^i` — `base` not ending in `".html"`, and the
part before the `".txt"` run not ending in `".txt"` — it removes the trailing
run of `".txt"` suffixes, then the trailing run of `".html"` suffixes, and
appends a single `".txt"`; by (iii) every URL admits exactly such a
decomposition, so (ii) covers all rfc-editor URLs, including mixed-suffix ones
such as `…/rfc9000.txt.html` (`base = …/rfc9000.txt`, `j = 1`, `i = 0`),
which maps to `…/rfc9000.txt.txt` — a `".txt"` buried before a trailing
`".html"` survives; (iv) every URL matching neither prefix is returned
unchanged. -/
theorem canonical_url_canonicalizes :
    (∀ name : List Char, ¬ txtSuffix <:+ name → ¬ htmlSuffix <:+ name →
        canonical_url (ietfPre ++ name) = rfcEditorPre ++ name ++ txtSuffix ∧
        canonical_url (ietfPre ++ name ++ txtSuffix)
          = rfcEditorPre ++ name ++ txtSuffix ∧
        canonical_url (ietfPre ++ name ++ htmlSuffix)
          = rfcEditorPre ++ name ++ txtSuffix) ∧
    (∀ (base : List Char) (i j : Nat),
        ¬ htmlSuffix <:+ base →
        ¬ txtSuffix <:+ base ++ repeatList htmlSuffix j →
        rfcEditorPre <+:
          base ++ repeatList htmlSuffix j ++ repeatList txtSuffix i →
        canonical_url (base ++ repeatList htmlSuffix j ++ repeatList txtSuffix i)
          = base ++ txtSuffix) ∧
    (∀ url : List Char, ∃ base j i,
        url = base ++ repeatList htmlSuffix j ++ repeatList txtSuffix i ∧
        ¬ htmlSuffix <:+ base ∧
        ¬ txtSuffix <:+ base ++ repeatList htmlSuffix j) ∧
    (∀ url : List Char, ¬ ietfPre <+: url → ¬ rfcEditorPre <+: url →
        canonical_url url = url) := by
  refine ⟨?_, ?_, ?_, ?_⟩
  · intro name h1 h2
    refine ⟨?_, ?_, ?_⟩
    · simp only [canonical_url]
      rw [if_pos (List.prefix_append ietfPre name), List.drop_left,
        trimEndMatches_of_not_suffix name txtSuffix h1,
        trimEndMatches_of_not_suffix name htmlSuffix h2]
    · simp only [canonical_url]
      rw [List.append_assoc ietfPre name txtSuffix,
        if_pos (List.prefix_append ietfPre (name ++ txtSuffix)),
        List.drop_left, trimEndMatches_append name txtSuffix (by decide),
        trimEndMatches_of_not_suffix name txtSuffix h1,
        trimEndMatches_of_not_suffix name htmlSuffix h2]
    · simp only [canonical_url]
      rw [List.append_assoc ietfPre name htmlSuffix,
        if_pos (List.prefix_append ietfPre (name ++ htmlSuffix)),
        List.drop_left,
        trimEndMatches_of_not_suffix (name ++ htmlSuffix) txtSuffix
          (not_txt_suffix_of_html name),
        trimEndMatches_append name htmlSuffix (by decide),
        trimEndMatches_of_not_suffix name htmlSuffix h2]
  · intro base i j h1 h2 hpre
    simp only [canonical_url]
    rw [if_neg (not_ietf_prefix_of_rfcEditor hpre), if_pos hpre,
      trimEndMatches_repeatList txtSuffix (by decide) i
        (base ++ repeatList htmlSuffix j),
      trimEndMatches_of_not_suffix _ txtSuffix h2,
      trimEndMatches_repeatList htmlSuffix (by decide) j base,
      trimEndMatches_of_not_suffix base htmlSuffix h1]
  · intro url
    obtain ⟨b1, i, h1, hnt⟩ := exists_trailing_run txtSuffix (by decide) url
    obtain ⟨base, j, h2, hnh⟩ := exists_trailing_run htmlSuffix (by decide) b1
    refine ⟨base, j, i, ?_, hnh, ?_⟩
    · rw [h1, h2]
    · rw [← h2]; exact hnt
  · intro url hn1 hn2
    simp only [canonical_url]
    rw [if_neg hn1, if_neg hn2]

/-- Concrete document name for the C8 witness. -/
def nameStr : String := "rfc9000"

/-- A URL matching neither IETF prefix, for the C8 witness. -/
def otherStr : String := "https://example.com/spec"

/-- Witness for the amended C8 on all branches, exercising in particular the
mixed-suffix case `…/rfc9000.txt` + `".html"` (the decomposition `base =
cexClaimStr`, `j = 1`, `i = 0` of the counterexample URL), which resolves to
`…/rfc9000.txt.txt`. -/
theorem canonical_url_canonicalizes_witness :
    canonical_url (ietfPre ++ nameStr.toList ++ txtSuffix)
      = rfcEditorPre ++ nameStr.toList ++ txtSuffix ∧
    canonical_url (cexClaimStr.toList ++ repeatList htmlSuffix 1
        ++ repeatList txtSuffix 0)
      = cexClaimStr.toList ++ txtSuffix ∧
    (∃ base j i,
        cexUrlStr.toList
          = base ++ repeatList htmlSuffix j ++ repeatList txtSuffix i ∧
        ¬ htmlSuffix <:+ base ∧
        ¬ txtSuffix <:+ base ++ repeatList htmlSuffix j) ∧
    canonical_url otherStr.toList = otherStr.toList := by
  refine ⟨?_, ?_, ?_, ?_⟩
  · exact (canonical_url_canonicalizes.1 nameStr.toList (by decide)
      (by decide)).2.1
  · exact canonical_url_canonicalizes.2.1 cexClaimStr.toList 0 1 (by decide)
      (by decide) (by decide)
  · exact canonical_url_canonicalizes.2.2.1 cexUrlStr.toList
  · exact canonical_url_canonicalizes.2.2.2 otherStr.toList (by decide)
      (by decide)
